import Mathlib

/-!
Verification of the OpenRGD spec-unifier, topology resolver and exporter.

This file gives a shallow embedding of the core logic of the OpenRGD
command-line tool (JSONC normalization, spec scanning, domain detection,
unified-document building, integrity normalization, profile expansion and
the ROS2 exporter's gains computation) and proves properties about it.

JSON values are modelled by a mutual inductive family: `Json` for values,
`JArr` for arrays and `JObj` for objects.  Objects are association lists
in insertion order, mirroring Python's insertion-ordered `dict`; numbers
are modelled as integers (all numbers occurring in the verified claims are
integral).
-/

set_option autoImplicit false
set_option maxRecDepth 8000

namespace OpenRGD

mutual

/-- A JSON value as handled by the Python code (numbers restricted to
integers, which covers all claim inputs). -/
inductive Json where
  | null
  | bool (b : Bool)
  | num (n : Int)
  | str (s : String)
  | arr (xs : JArr)
  | obj (fs : JObj)
  deriving DecidableEq, Repr

/-- A JSON array. -/
inductive JArr where
  | nil
  | cons (hd : Json) (tl : JArr)
  deriving DecidableEq, Repr

/-- A JSON object: an association list of string keys and values in
insertion order, like a Python `dict`. -/
inductive JObj where
  | nil
  | cons (k : String) (v : Json) (tl : JObj)
  deriving DecidableEq, Repr

end

namespace JObj

/-- `d.get(k)`: the value bound to the first occurrence of key `k`. -/
def lookup : JObj → String → Option Json
  | .nil, _ => none
  | .cons k' v tl, k => if k' = k then some v else lookup tl k

/-- `k in d`. -/
def hasKey (fs : JObj) (k : String) : Bool :=
  (fs.lookup k).isSome

/-- `d[k] = v`: update the entry for `k` in place if present (keeping its
position, as Python dicts do), otherwise append a new entry at the end. -/
def set : JObj → String → Json → JObj
  | .nil, k, v => .cons k v .nil
  | .cons k' v' tl, k, v =>
      if k' = k then .cons k' v tl else .cons k' v' (set tl k v)

/-- `d.pop(k, None)`: remove the first entry with key `k`, if any. -/
def eraseKey : JObj → String → JObj
  | .nil, _ => .nil
  | .cons k' v tl, k => if k' = k then tl else .cons k' v (eraseKey tl k)

/-- `len(d)`. -/
def length : JObj → Nat
  | .nil => 0
  | .cons _ _ tl => 1 + length tl

/-- The entries of the object as a list, for specification purposes. -/
def toList : JObj → List (String × Json)
  | .nil => []
  | .cons k v tl => (k, v) :: toList tl

/-- Build an object from a list of entries. -/
def ofList : List (String × Json) → JObj
  | [] => .nil
  | (k, v) :: tl => .cons k v (ofList tl)

end JObj

namespace JArr

/-- The elements of the array as a list. -/
def toList : JArr → List Json
  | .nil => []
  | .cons h tl => h :: toList tl

/-- Build an array from a list of values. -/
def ofList : List Json → JArr
  | [] => .nil
  | h :: tl => .cons h (ofList tl)

end JArr

mutual

/-- Structural size of a JSON value, used as fuel for nested inductions. -/
def sizeJson : Json → Nat
  | .arr xs => 1 + sizeArr xs
  | .obj fs => 1 + sizeObj fs
  | _ => 1

/-- Structural size of a JSON array. -/
def sizeArr : JArr → Nat
  | .nil => 0
  | .cons h tl => 1 + sizeJson h + sizeArr tl

/-- Structural size of a JSON object. -/
def sizeObj : JObj → Nat
  | .nil => 0
  | .cons _ v tl => 1 + sizeJson v + sizeObj tl

end

mutual

/-- Well-formedness of a JSON value: every object that occurs in it has
pairwise-distinct keys.  Values decoded from JSON text by Python's
`json.loads` always satisfy this, since a `dict` cannot carry a key twice. -/
def wfJson : Json → Bool
  | .arr xs => wfArr xs
  | .obj fs => wfObj fs
  | _ => true

/-- Well-formedness of each element of an array. -/
def wfArr : JArr → Bool
  | .nil => true
  | .cons h tl => wfJson h && wfArr tl

/-- Distinct keys at this level, and well-formed values. -/
def wfObj : JObj → Bool
  | .nil => true
  | .cons k v tl => !(tl.hasKey k) && wfJson v && wfObj tl

end

mutual

/-- Python's `==` on decoded JSON values: deep equality, with `dict`
comparison insensitive to insertion order and `True == 1`, `False == 0`. -/
def pyEq : Json → Json → Bool
  | .null, .null => true
  | .bool b1, .bool b2 => b1 == b2
  | .bool b1, .num n2 => (if b1 then (1 : Int) else 0) == n2
  | .num n1, .bool b2 => n1 == (if b2 then (1 : Int) else 0)
  | .num n1, .num n2 => n1 == n2
  | .str s1, .str s2 => s1 == s2
  | .arr a1, .arr a2 => pyEqArr a1 a2
  | .obj o1, .obj o2 => (o1.length == o2.length) && pyEqObjSub o1 o2
  | _, _ => false

/-- Python's `==` on lists: same length and pairwise equal. -/
def pyEqArr : JArr → JArr → Bool
  | .nil, .nil => true
  | .cons h1 t1, .cons h2 t2 => pyEq h1 h2 && pyEqArr t1 t2
  | _, _ => false

/-- Every entry of the first object is matched by an equal entry in the
second object (the containment half of Python's `dict.__eq__`). -/
def pyEqObjSub : JObj → JObj → Bool
  | .nil, _ => true
  | .cons k v tl, o2 =>
      (match o2.lookup k with
        | some w => pyEq v w
        | none => false) && pyEqObjSub tl o2

end

/-! ## The JSONC normalizer (`core/utils.py`, `strip_jsonc`)

The Python function is a character machine over the input text with state
`(i, in_string, in_comment_line, in_comment_block)` and an output buffer.
It advances `i` by one or two characters per iteration, so we drive the
recursion with a fuel argument that starts at the text length; the fuel
never runs out because `i` grows by at least one per step. -/

/-- One-to-one translation of the `while` loop of `strip_jsonc`.
`t.getD (i+1) '\x00'` plays the role of Python's `next_char`, which is the
empty string (never equal to `/` or `*`) past the end of the text. -/
def stripAux (t : List Char) : Nat → Nat → Bool → Bool → Bool → List Char → List Char
  | 0, _, _, _, _, acc => acc.reverse
  | fuel + 1, i, inS, inCL, inCB, acc =>
    if i < t.length then
      let c := t.getD i ' '
      let nc := t.getD (i + 1) '\x00'
      if c == '"' && !inCL && !inCB then
        let esc := decide (0 < i) && (t.getD (i - 1) ' ' == '\\')
            && !(decide (1 < i) && (t.getD (i - 2) ' ' == '\\'))
        stripAux t fuel (i + 1) (if esc then inS else !inS) inCL inCB (c :: acc)
      else if inS then
        stripAux t fuel (i + 1) inS inCL inCB (c :: acc)
      else if !inCL && !inCB && c == '/' && nc == '/' then
        stripAux t fuel (i + 2) inS true inCB acc
      else if !inCL && !inCB && c == '/' && nc == '*' then
        stripAux t fuel (i + 2) inS inCL true acc
      else if inCL && c == '\n' then
        stripAux t fuel (i + 1) inS false inCB (c :: acc)
      else if inCB && c == '*' && nc == '/' then
        stripAux t fuel (i + 2) inS inCL false acc
      else if !inCL && !inCB then
        stripAux t fuel (i + 1) inS inCL inCB (c :: acc)
      else
        stripAux t fuel (i + 1) inS inCL inCB acc
    else acc.reverse

/-- `strip_jsonc` from `core/utils.py`. -/
def stripJsonc (s : String) : String :=
  ⟨stripAux s.data s.data.length 0 false false false []⟩

/-- Specification-side predicate: scanning the text with the string-literal
tracking described by the claim (a quote toggles string state unless it is
escaped by a single backslash; a quote preceded by a double backslash does
toggle), no `//` or `/*` sequence ever occurs outside a string literal. -/
def okAux (t : List Char) : Nat → Nat → Bool → Bool
  | 0, _, _ => true
  | fuel + 1, i, inS =>
    if i < t.length then
      let c := t.getD i ' '
      let nc := t.getD (i + 1) '\x00'
      if c == '"' then
        let esc := decide (0 < i) && (t.getD (i - 1) ' ' == '\\')
            && !(decide (1 < i) && (t.getD (i - 2) ' ' == '\\'))
        okAux t fuel (i + 1) (if esc then inS else !inS)
      else if !inS && c == '/' && (nc == '/' || nc == '*') then
        false
      else
        okAux t fuel (i + 1) inS
    else true

/-- Every `//` and `/*` in the text lies inside a properly quoted and
escaped string literal, in the sense of the claim. -/
def commentsOnlyInStrings (s : String) : Bool :=
  okAux s.data s.data.length 0 false

/-! ## Character-level string helpers

Lean's builtin `Substring`-based string functions are replaced by
character-list implementations of the Python string operations the code
uses, so that all definitions evaluate inside the kernel. -/

/-- Python `s.startswith(p)`. -/
def strStartsWith (s p : String) : Bool :=
  p.data.isPrefixOf s.data

/-- Python `s.strip()`: drop leading and trailing whitespace. -/
def pstrip (s : String) : String :=
  ⟨((s.data.dropWhile Char.isWhitespace).reverse.dropWhile
      Char.isWhitespace).reverse⟩

/-- Python `s.rstrip()`: drop trailing whitespace. -/
def prstrip (s : String) : String :=
  ⟨(s.data.reverse.dropWhile Char.isWhitespace).reverse⟩

/-- Python `s.lower()` for ASCII names. -/
def strToLower (s : String) : String :=
  ⟨s.data.map Char.toLower⟩

/-- Split a character list at every occurrence of `c`. -/
def splitCharAux (c : Char) : List Char → List Char → List (List Char)
  | [], cur => [cur.reverse]
  | x :: xs, cur =>
      if x = c then cur.reverse :: splitCharAux c xs []
      else splitCharAux c xs (x :: cur)

/-- Python `s.split(c)` for a one-character separator. -/
def splitChar (c : Char) (s : String) : List String :=
  (splitCharAux c s.data []).map (fun l => ⟨l⟩)

/-- Lexicographic comparison of character lists by code point. -/
def charListLe : List Char → List Char → Bool
  | [], _ => true
  | _ :: _, [] => false
  | x :: xs, y :: ys => if x = y then charListLe xs ys else decide (x < y)

/-- Python `a <= b` on strings: lexicographic by code point. -/
def strLe (a b : String) : Bool :=
  charListLe a.data b.data

/-- Insert `x` after every element that compares `≤ x`, keeping the
arrival order of ties. -/
def insertSorted {α : Type} (le : α → α → Bool) (x : α) : List α → List α
  | [] => [x]
  | y :: ys => if le y x then y :: insertSorted le x ys else x :: y :: ys

/-- A stable ascending sort, the behaviour `list.sort` and `sorted`
guarantee in Python. -/
def stableSort {α : Type} (le : α → α → Bool) (l : List α) : List α :=
  l.foldl (fun acc x => insertSorted le x acc) []

/-! ## Generic association-list helpers (Python `dict` assignment) -/

/-- `m[k] = v` on a generic insertion-ordered dictionary. -/
def setAssoc {α : Type} : List (String × α) → String → α → List (String × α)
  | [], k, v => [(k, v)]
  | (k', v') :: tl, k, v =>
      if k' = k then (k', v) :: tl else (k', v') :: setAssoc tl k v

/-- `m.get(k)` on a generic insertion-ordered dictionary. -/
def lookupAssoc {α : Type} : List (String × α) → String → Option α
  | [], _ => none
  | (k', v') :: tl, k => if k' = k then some v' else lookupAssoc tl k

/-! ## The spec scanner (`core/spec_unifier.py`) -/

/-- `DOMAIN_WEIGHTS` from `core/spec_unifier.py`, in insertion order. -/
def DOMAIN_WEIGHTS : List (String × Nat) :=
  [("01_", 1), ("02_", 2), ("03_", 3), ("04_", 4), ("05_", 5), ("06_", 6)]

/-- `detect_domain_from_relpath`: iterate over the path's parts; for each
part, the first table prefix it starts with sets domain and weight and
breaks the inner loop only, so a later part that also matches overwrites
the earlier result. -/
def detectDomainFromRelpath (parts : List String) : String × Nat :=
  parts.foldl
    (fun acc part =>
      match DOMAIN_WEIGHTS.find? (fun pw => strStartsWith part pw.1) with
      | some pw => (part, pw.2)
      | none => acc)
    ("unknown", 999)

/-- A file visited by `spec_dir.rglob("*.jsonc")`: its path components
relative to `root_dir`, and its text.  The scanner receives the files
already sorted by full path, as `sorted(...rglob...)` yields them; every
name ends in `.jsonc` because of the glob pattern. -/
structure ScanFile where
  parts : List String
  text : String
  deriving DecidableEq, Repr

/-- `file_path.name`: the last path component. -/
def ScanFile.name (f : ScanFile) : String :=
  f.parts.getLastD ""

/-- `file_path.stem` for a `*.jsonc` file. -/
def stemOf (n : String) : String :=
  if ".jsonc".data.isSuffixOf n.data then ⟨n.data.take (n.data.length - 6)⟩ else n

/-- One record produced by `scan_spec_records`. -/
structure SpecRecord where
  path : String
  id : String
  domain : String
  weight : Nat
  raw_content : String
  parsed_content : Json
  deriving DecidableEq, Repr

/-- The sort key `(x["weight"], x["id"])` compared as Python does,
lexicographically. -/
def recLe (a b : SpecRecord) : Bool :=
  decide (a.weight < b.weight) || (decide (a.weight = b.weight) && strLe a.id b.id)

/-- `scan_spec_records`.  `parse` stands for `json.loads(..., strict=False)`,
an external collaborator: `none` is a parse error, and such files are
skipped with a warning.  Files whose name contains `unified_spec` are
skipped before reading.  The final list is sorted by `(weight, id)` with a
stable sort, as `list.sort` is. -/
def scanSpecRecords (parse : String → Option Json) (files : List ScanFile) :
    List SpecRecord :=
  let records := files.filterMap (fun f =>
    if decide ("unified_spec".data <:+: f.name.data) then none
    else
      let raw := pstrip f.text
      match parse (stripJsonc raw) with
      | none => none
      | some content =>
        let dw := detectDomainFromRelpath f.parts
        some { path := String.intercalate "/" f.parts, id := stemOf f.name,
               domain := dw.1, weight := dw.2,
               raw_content := raw, parsed_content := content })
  stableSort recLe records

/-- `build_domain_maps`, first half: `domain_map.setdefault(dom, []).append(r)`. -/
def addToDomainMap (m : List (String × List SpecRecord)) (dom : String)
    (r : SpecRecord) : List (String × List SpecRecord) :=
  match lookupAssoc m dom with
  | some rs => setAssoc m dom (rs ++ [r])
  | none => m ++ [(dom, [r])]

/-- `build_domain_maps`: group records by domain (skipping `unknown`) and
build the alias table (lower-cased full name, numeric prefix before the
first underscore, textual label after it). -/
def buildDomainMaps (records : List SpecRecord) :
    List (String × List SpecRecord) × List (String × String) :=
  let domainMap := records.foldl
    (fun m r => if r.domain = "unknown" then m else addToDomainMap m r.domain r) []
  let domainAliases := domainMap.foldl
    (fun al p =>
      let dom := p.1
      let lowerDom := strToLower dom
      let al := setAssoc al lowerDom dom
      if '_' ∈ lowerDom.data then
        let pre : String := ⟨lowerDom.data.takeWhile (· ≠ '_')⟩
        let lab : String := ⟨(lowerDom.data.dropWhile (· ≠ '_')).drop 1⟩
        setAssoc (setAssoc al pre dom) lab dom
      else al) []
  (domainMap, domainAliases)

/-! ## Unified-document and bundle text builders (`core/spec_unifier.py`)

Only the Human Twin outputs matter to the scanner claims: they are the
only generated files with the `.jsonc` extension that `rglob("*.jsonc")`
can pick up again (the Machine Twin outputs end in `.json`).  The
`datetime.now().isoformat()` timestamp is passed in as a parameter. -/

/-- A `// ===…` or `// ---…` banner line of `n` rule characters. -/
def bannerLine (c : Char) (n : Nat) : String :=
  "// " ++ (⟨List.replicate n c⟩ : String)

/-- `indent_block`. -/
def indentBlock (text : String) (indentStr : String) : String :=
  String.intercalate "\n"
    ((splitChar '\n' text).map (fun line =>
      if pstrip line = "" then line else indentStr ++ line))

/-- The lines appended for one record inside the `"files"` array; the last
record omits the trailing comma. -/
def recordBlockLines (r : SpecRecord) (isLast : Bool) : List String :=
  ["    \x7b",
   "      \"path\": \"" ++ r.path ++ "\",",
   "      \"id\": \"" ++ r.id ++ "\",",
   "      \"domain\": \"" ++ r.domain ++ "\",",
   "      \"content\": ",
   indentBlock r.raw_content "      ",
   if isLast then "    \x7d" else "    \x7d,"]

/-- All record blocks, flagging the final record. -/
def recordBlocks : List SpecRecord → List String
  | [] => []
  | [r] => recordBlockLines r true
  | r :: rest => recordBlockLines r false ++ recordBlocks rest

/-- `generate_human_unified_from_records`: the text written to
`{output_base}.jsonc`. -/
def humanUnifiedText (records : List SpecRecord) (ts : String) : String :=
  String.intercalate "\n"
    ([bannerLine '=' 70,
      "// OPENRGD — UNIFIED SPECIFICATION (HUMAN TWIN)",
      bannerLine '-' 70,
      "// Generated at: " ++ ts,
      "// This file contains the raw source code of all modules, comments included.",
      bannerLine '=' 70,
      "",
      "\x7b",
      "  \"meta\": \x7b",
      "    \"standard\": \"OpenRGD\",",
      "    \"type\": \"HUMAN_TWIN_WITH_COMMENTS\",",
      "    \"version\": \"0.1.0\"",
      "  \x7d,",
      "  \"files\": ["]
     ++ recordBlocks records
     ++ ["  ]", "\x7d"])

/-- `prefix = dom.split("_", 1)[0]; base_name = f"{prefix}_spec"`. -/
def bundleBaseName (dom : String) : String :=
  (⟨dom.data.takeWhile (· ≠ '_')⟩ : String) ++ "_spec"

/-- The Human Twin text of one domain bundle, written to
`{base_name}.jsonc` inside the spec directory; the records are re-sorted
by id as `generate_domain_bundles` does. -/
def domainBundleHumanText (dom : String) (records : List SpecRecord)
    (ts : String) : String :=
  let sortedRecs := stableSort (fun a b => strLe a.id b.id) records
  String.intercalate "\n"
    ([bannerLine '=' 53,
      "// OPENRGD — DOMAIN SPEC (HUMAN TWIN) — " ++ dom,
      bannerLine '-' 53,
      "// Generated at: " ++ ts,
      bannerLine '=' 53,
      "",
      "\x7b",
      "  \"meta\": \x7b",
      "    \"standard\": \"OpenRGD\",",
      "    \"type\": \"DOMAIN_HUMAN_TWIN_WITH_COMMENTS\",",
      "    \"domain\": \"" ++ dom ++ "\",",
      "    \"version\": \"0.1.0\"",
      "  \x7d,",
      "  \"files\": ["]
     ++ recordBlocks sortedRecs
     ++ ["  ]", "\x7d"])

/-- `generate_domain_bundles` with `target_domains=None`: the `.jsonc`
files it writes into the spec directory, as `(filename, text)` pairs, one
per domain with records (empty domains are skipped with a warning). -/
def generateDomainBundleHumanFiles
    (domainMap : List (String × List SpecRecord)) (ts : String) :
    List (String × String) :=
  let domainIds := stableSort strLe (domainMap.map Prod.fst)
  domainIds.filterMap (fun dom =>
    let records := (lookupAssoc domainMap dom).getD []
    if records.isEmpty then none
    else some (bundleBaseName dom ++ ".jsonc", domainBundleHumanText dom records ts))

namespace Compiler

/-! ## The duplicated scanner in `commands/compiler.py`

`commands/compiler.py` carries its own copies of `DOMAIN_WEIGHTS`,
`detect_domain_from_relpath`, `scan_spec_records` and `build_domain_maps`;
they are embedded here independently, translated from that file. -/

/-- `DOMAIN_WEIGHTS` from `commands/compiler.py`. -/
def DOMAIN_WEIGHTS : List (String × Nat) :=
  [("01_", 1), ("02_", 2), ("03_", 3), ("04_", 4), ("05_", 5), ("06_", 6)]

/-- `detect_domain_from_relpath` from `commands/compiler.py`. -/
def detectDomainFromRelpath (parts : List String) : String × Nat :=
  parts.foldl
    (fun acc part =>
      match Compiler.DOMAIN_WEIGHTS.find? (fun pw => strStartsWith part pw.1) with
      | some pw => (part, pw.2)
      | none => acc)
    ("unknown", 999)

/-- `scan_spec_records` from `commands/compiler.py`. -/
def scanSpecRecords (parse : String → Option Json) (files : List ScanFile) :
    List SpecRecord :=
  let records := files.filterMap (fun f =>
    if decide ("unified_spec".data <:+: f.name.data) then none
    else
      let raw := pstrip f.text
      match parse (stripJsonc raw) with
      | none => none
      | some content =>
        let dw := Compiler.detectDomainFromRelpath f.parts
        some { path := String.intercalate "/" f.parts, id := stemOf f.name,
               domain := dw.1, weight := dw.2,
               raw_content := raw, parsed_content := content })
  stableSort recLe records

/-- The `setdefault` step of `build_domain_maps` from `commands/compiler.py`. -/
def addToDomainMap (m : List (String × List SpecRecord)) (dom : String)
    (r : SpecRecord) : List (String × List SpecRecord) :=
  match lookupAssoc m dom with
  | some rs => setAssoc m dom (rs ++ [r])
  | none => m ++ [(dom, [r])]

/-- `build_domain_maps` from `commands/compiler.py`. -/
def buildDomainMaps (records : List SpecRecord) :
    List (String × List SpecRecord) × List (String × String) :=
  let domainMap := records.foldl
    (fun m r =>
      if r.domain = "unknown" then m else Compiler.addToDomainMap m r.domain r) []
  let domainAliases := domainMap.foldl
    (fun al p =>
      let dom := p.1
      let lowerDom := strToLower dom
      let al := setAssoc al lowerDom dom
      if '_' ∈ lowerDom.data then
        let pre : String := ⟨lowerDom.data.takeWhile (· ≠ '_')⟩
        let lab : String := ⟨(lowerDom.data.dropWhile (· ≠ '_')).drop 1⟩
        setAssoc (setAssoc al pre dom) lab dom
      else al) []
  (domainMap, domainAliases)

end Compiler

/-! ## The topology resolver (`bridges/ros2/generator.py`)

`_recursive_update(d, u)` walks the overlay `u`; a nested dict value is
merged into `d.get(k, \x7b\x7d)` recursively, anything else overwrites.
When the overlay holds a dict but `d[k]` is a non-dict, Python crashes on
the first item assignment inside the recursive call — unless the overlay
dict is empty, in which case the non-dict comes back unscathed.  A crash
is modelled as `none`. -/

/-- `_recursive_update`. -/
def rupdate : JObj → JObj → Option JObj
  | d, .nil => some d
  | d, .cons k v tl =>
    match v with
    | .obj vfs =>
      match d.lookup k with
      | some (.obj bfs) =>
        match rupdate bfs vfs with
        | none => none
        | some m => rupdate (d.set k (.obj m)) tl
      | some other =>
        if vfs = .nil then rupdate (d.set k other) tl else none
      | none =>
        match rupdate .nil vfs with
        | none => none
        | some m => rupdate (d.set k (.obj m)) tl
    | _ => rupdate (d.set k v) tl

/-- Python truthiness of a decoded JSON value. -/
def truthy : Json → Bool
  | .null => false
  | .bool b => b
  | .num n => n != 0
  | .str s => !(s = "")
  | .arr xs => !(xs = .nil)
  | .obj fs => !(fs = .nil)

/-- Python's `x in some_list` for a string `x`: membership by `==`. -/
def pyContainsArr : JArr → String → Bool
  | .nil, _ => false
  | .cons h tl, s => pyEq h (.str s) || pyContainsArr tl s

/-- `profile_id in profiles` followed by `profiles[profile_id]`, producing
the base object to deep-copy, a `some .nil` when the reference does not
resolve, or `none` when Python would raise (non-dict profile value merged
with a non-empty instance, unhashable reference, string/list indexing).
Exotic numeric indexing into list-shaped profile maps is also mapped to
`none`; no spec tree shapes `control_profiles_map` as anything but a
dict of dicts. -/
def profileBase (profilesVal : Json) (pv : Json) : Option JObj :=
  if truthy pv then
    match pv, profilesVal with
    | .str s, .obj p =>
        match p.lookup s with
        | some (.obj prof) => some prof
        | some _ => none
        | none => some .nil
    | .str s, .str s2 => if decide (s.data <:+: s2.data) then none else some .nil
    | .str s, .arr xs => if pyContainsArr xs s then none else some .nil
    | .num _, .obj _ => some .nil
    | .bool _, .obj _ => some .nil
    | _, _ => none
  else some .nil

/-- `_expand_profiles`, per instance: start from the (deep-copied) profile
base if the instance names one, merge the instance's own fields on top,
then merge an explicit `overrides` block if present. -/
def resolveInstance (profilesVal : Json) (inst : JObj) : Option Json :=
  let base : Option JObj :=
    match inst.lookup "use_profile_ref_str" with
    | none => some .nil
    | some pv => profileBase profilesVal pv
  match base with
  | none => none
  | some b =>
    match rupdate b inst with
    | none => none
    | some merged =>
      match inst.lookup "overrides" with
      | none => some (.obj merged)
      | some (.obj ov) =>
        match rupdate merged ov with
        | none => none
        | some m2 => some (.obj m2)
      | some _ => none

/-- The loop of `_expand_profiles` over `joint_actuator_mapping_map`; a
non-dict instance value makes `instance_data.get` raise. -/
def resolveInstances (profilesVal : Json) : JObj → Option JObj
  | .nil => some .nil
  | .cons k v tl =>
    match v with
    | .obj inst =>
      match resolveInstance profilesVal inst with
      | none => none
      | some r =>
        match resolveInstances profilesVal tl with
        | none => none
        | some rest => some (.cons k r rest)
    | _ => none

/-- `_expand_profiles`: empty topology short-circuits to `\x7b\x7d`;
otherwise the expanded instances are wrapped back under
`joint_actuator_mapping_map`. -/
def expandProfiles (topo : JObj) : Option JObj :=
  if topo = .nil then some .nil
  else
    let profilesVal := (topo.lookup "control_profiles_map").getD (.obj .nil)
    let instancesVal := (topo.lookup "joint_actuator_mapping_map").getD (.obj .nil)
    match instancesVal with
    | .obj instances =>
      match resolveInstances profilesVal instances with
      | none => none
      | some expanded =>
        some (.cons "joint_actuator_mapping_map" (.obj expanded) .nil)
    | _ => none

/-! ## The exporters' gains computation

`bridges/ros2/generator.py` (`ROS2Bridge`) and
`synapses/ros2/generator.py` (`ROS2Synapse`) both build the
`ros2_control.yaml` gains section from the resolved topology of each
joint; their `_extract_val` helpers and emission conditions differ and are
embedded separately.  A per-joint gains line is represented structurally
by the `(p, i, d)` values it carries; `none` at the outer level models a
Python `TypeError` from comparing a non-number. -/

/-- Step 1 of the bridge's `_extract_val`: direct search of the keys. -/
def tryKeysIn (data : JObj) : List String → Option Json
  | [] => none
  | k :: rest =>
    match data.lookup k with
    | some v => some v
    | none => tryKeysIn data rest

/-- The bridge's `sub_containers` list. -/
def subContainersBridge : List String :=
  ["limits", "application_limits", "joint_limits",
   "control_defaults", "position_mode_gains", "velocity_mode_gains",
   "advanced_impedance_model", "transmission_config"]

/-- Step 2 of the bridge's `_extract_val`: per sub-container (dict-valued
ones only, thanks to the `isinstance` guard), search all keys. -/
def trySubContainers (data : JObj) (keys : List String) : List String → Option Json
  | [] => none
  | sub :: rest =>
    match data.lookup sub with
    | some (.obj m) =>
      (match tryKeysIn m keys with
       | some v => some v
       | none => trySubContainers data keys rest)
    | _ => trySubContainers data keys rest

/-- `_extract_val` from `bridges/ros2/generator.py`. -/
def extractVal (data : JObj) (keys : List String) (default : Json) : Json :=
  match tryKeysIn data keys with
  | some v => v
  | none =>
    match trySubContainers data keys subContainersBridge with
    | some v => v
    | none => default

/-- The synapse's sub-container list. -/
def subContainersSyn : List String :=
  ["limits", "application_limits", "joint_limits",
   "control_defaults", "position_mode_gains"]

/-- Python's `k in container`, `none` on the `TypeError` for non-iterable
containers. -/
def pyContains (k : String) (container : Json) : Option Bool :=
  match container with
  | .obj fs => some (fs.hasKey k)
  | .arr xs => some (pyContainsArr xs k)
  | .str s => some (decide (k.data <:+: s.data))
  | _ => none

/-- The synapse's inner sub-container search for one key: `some (some v)`
found, `some none` not found, `none` a `TypeError` (`k in data[sub]` on a
non-iterable, or `data[sub][k]` on a string/list). -/
def synSearchSubs (data : JObj) (k : String) : List String → Option (Option Json)
  | [] => some none
  | sub :: rest =>
    match data.lookup sub with
    | none => synSearchSubs data k rest
    | some sv =>
      match pyContains k sv with
      | none => none
      | some true =>
        match sv with
        | .obj m => some (m.lookup k)
        | _ => none
      | some false => synSearchSubs data k rest

/-- `_extract_val` from `synapses/ros2/generator.py`: for each key in
order, direct hit first, then every sub-container (no `isinstance`
guard). -/
def synExtractVal (data : JObj) (keys : List String) (default : Json) :
    Option Json :=
  match keys with
  | [] => some default
  | k :: rest =>
    match data.lookup k with
    | some v => some v
    | none =>
      match synSearchSubs data k subContainersSyn with
      | none => none
      | some (some v) => some v
      | some none => synExtractVal data rest default

/-- Python `v == 0` (never raises; `False == 0` holds). -/
def jsonEq0 : Json → Bool
  | .num n => n == 0
  | .bool b => !b
  | _ => false

/-- Python `v > 0`: defined for numbers and booleans, `TypeError`
otherwise. -/
def jsonGt0 : Json → Option Bool
  | .num n => some (decide (0 < n))
  | .bool b => some b
  | _ => none

/-- The `(p, i, d)` payload of one emitted gains line. -/
structure GainsLine where
  p : Json
  i : Json
  d : Json
  deriving DecidableEq, Repr

/-- The per-joint body of the bridge's `_generate_ros2_control_yaml` gains
loop: extract PID gains (default `0.0`), fall back to the impedance
stiffness/damping pair when `kp == 0 and kd == 0` and `stiff > 0`, and
emit a line only `if kp > 0 or kd > 0`.  `some none` means no line is
emitted for the joint. -/
def bridgeGainsEntry (topo : JObj) : Option (Option GainsLine) :=
  let kp := extractVal topo ["kp_position_float", "kp"] (.num 0)
  let ki := extractVal topo ["ki_position_float", "ki"] (.num 0)
  let kd := extractVal topo ["kd_position_float", "kd"] (.num 0)
  let pair : Option (Json × Json) :=
    if jsonEq0 kp && jsonEq0 kd then
      let stiff := extractVal topo ["stiffness_nm_rad_float", "stiffness"] (.num 0)
      let damp := extractVal topo ["damping_nms_rad_float", "damping"] (.num 0)
      match jsonGt0 stiff with
      | none => none
      | some true => some (stiff, damp)
      | some false => some (kp, kd)
    else some (kp, kd)
  match pair with
  | none => none
  | some (kp2, kd2) =>
    match jsonGt0 kp2 with
    | none => none
    | some true => some (some ⟨kp2, ki, kd2⟩)
    | some false =>
      match jsonGt0 kd2 with
      | none => none
      | some true => some (some ⟨kp2, ki, kd2⟩)
      | some false => some none

/-- The per-joint body of the synapse's `_generate_ros2_control_yaml`
gains loop: a line is emitted `if p or i or d`, by truthiness, with no
stiffness/damping fallback. -/
def synGainsEntry (topo : JObj) : Option (Option GainsLine) :=
  match synExtractVal topo ["kp_position_float", "kp"] (.num 0) with
  | none => none
  | some p =>
  match synExtractVal topo ["ki_position_float", "ki"] (.num 0) with
  | none => none
  | some i =>
  match synExtractVal topo ["kd_position_float", "kd"] (.num 0) with
  | none => none
  | some d =>
    if truthy p || truthy i || truthy d then some (some ⟨p, i, d⟩) else some none

/-! ## The integrity check (`commands/integrity.py`)

The comparison stage of `check_integrity` normalizes the freshly rebuilt
Human Twin text and the benchmark text (dropping `Generated at:` lines and
trailing whitespace), normalizes the two Machine Twin documents (removing
`meta.generated_at`), and exits `0` exactly when both comparisons match. -/

/-- Python `str.splitlines()` for `\n`-separated text. -/
def splitlines (s : String) : List String :=
  if s = "" then []
  else
    let ls := splitChar '\n' s
    if ls.getLast? = some "" then ls.dropLast else ls

/-- `normalize_human_jsonc` from `core/spec_unifier.py`: drop every line
the `.*Generated at:.*` pattern matches (those containing the marker) and
strip trailing whitespace from the rest. -/
def normalizeHumanJsonc (text : String) : String :=
  String.intercalate "\n"
    ((splitlines text).filterMap (fun line =>
      if decide ("Generated at:".data <:+: line.data) then none
      else some (prstrip line)))

/-- `_normalize_machine_json` from `commands/integrity.py`: copy the
document, replace its `meta` entry by a copy without `generated_at`
(adding an empty `meta` when none was present); non-dict documents are
returned unchanged, and a non-dict `meta` value makes `dict(...)` raise,
modelled as `none`. -/
def normalizeMachineJson (doc : Json) : Option Json :=
  match doc with
  | .obj fs =>
    match (fs.lookup "meta").getD (.obj .nil) with
    | .obj m => some (.obj (fs.set "meta" (.obj (m.eraseKey "generated_at"))))
    | _ => none
  | _ => some doc

/-- Modelled from the spec: "the `generated_at` metadata field is removed
from the machine structure before comparison" — the reference
normalization used to state what machine comparison may and may not
ignore.  It removes `meta.generated_at` when a `meta` object is present
and touches nothing else. -/
def eraseGeneratedAt (doc : Json) : Json :=
  match doc with
  | .obj fs =>
    match fs.lookup "meta" with
    | some (.obj m) => .obj (fs.set "meta" (.obj (m.eraseKey "generated_at")))
    | _ => doc
  | _ => doc

/-- One record as `generate_machine_unified_from_standard` consumes it. -/
structure RecordM where
  path : String
  id : String
  domain : String
  content : Json
  deriving DecidableEq, Repr

/-- One entry of the machine document's `files` array. -/
def fileEntryJson (r : RecordM) : Json :=
  .obj (.cons "path" (.str r.path)
    (.cons "id" (.str r.id)
      (.cons "domain" (.str r.domain)
        (.cons "content" r.content .nil))))

/-- The machine document's `files` array. -/
def filesJson (rs : List RecordM) : Json :=
  .arr (JArr.ofList (rs.map fileEntryJson))

/-- The document built by `generate_machine_unified_from_standard` from
(already sorted) records at timestamp `ts`. -/
def machineDocFromStandard (rs : List RecordM) (ts : String) : Json :=
  .obj (.cons "meta"
    (.obj (.cons "standard" (.str "OpenRGD")
      (.cons "type" (.str "MACHINE_TWIN_FROM_STANDARD")
        (.cons "version" (.str "0.1.0")
          (.cons "generated_at" (.str ts)
            (.cons "note" (.str "Built from /standard JSON mirror.") .nil))))))
    (.cons "files" (filesJson rs) .nil))

/-- The comparison-and-verdict stage of `check_integrity`: given the
regenerated and benchmark Human Twin texts and the regenerated and
benchmark Machine Twin documents, exit code `0` when both comparisons
match and `1` otherwise (`none` when `_normalize_machine_json` raises). -/
def checkIntegrityVerdict (curHuman benchHuman : String)
    (curMachine benchMachine : Json) : Option Nat :=
  match normalizeMachineJson curMachine, normalizeMachineJson benchMachine with
  | some n1, some n2 =>
    some (if normalizeHumanJsonc curHuman = normalizeHumanJsonc benchHuman
            ∧ pyEq n1 n2 = true then 0 else 1)
  | _, _ => none

/-! ## Basic lemmas about objects -/

theorem hasKey_false_lookup {fs : JObj} {k : String}
    (h : fs.hasKey k = false) : fs.lookup k = none := by
  unfold JObj.hasKey at h
  cases hv : fs.lookup k <;> simp [hv] at h ⊢

theorem set_self : ∀ (d : JObj) (k : String) (v : Json),
    d.lookup k = some v → d.set k v = d
  | .nil, _, _, h => by simp [JObj.lookup] at h
  | .cons k' v' tl, k, v, h => by
    by_cases hk : k' = k
    · subst hk
      simp [JObj.lookup] at h
      simp [JObj.set, h]
    · simp [JObj.lookup, hk] at h
      simp [JObj.set, hk, set_self tl k v h]

theorem lookup_of_mem_wf : ∀ (fs : JObj) (k : String) (v : Json),
    wfObj fs = true → (k, v) ∈ fs.toList → fs.lookup k = some v
  | .nil, k, v, _, hm => by simp [JObj.toList] at hm
  | .cons k' v' tl, k, v, hwf, hm => by
    simp only [wfObj, Bool.and_eq_true, Bool.not_eq_true'] at hwf
    obtain ⟨⟨hnk, _⟩, htl⟩ := hwf
    simp only [JObj.toList, List.mem_cons, Prod.mk.injEq] at hm
    rcases hm with ⟨rfl, rfl⟩ | hm
    · simp [JObj.lookup]
    · have hlk := lookup_of_mem_wf tl k v htl hm
      by_cases hk : k' = k
      · subst hk
        rw [hasKey_false_lookup hnk] at hlk
        exact absurd hlk (by simp)
      · simp [JObj.lookup, hk, hlk]

theorem wf_of_mem : ∀ (fs : JObj) (k : String) (v : Json),
    wfObj fs = true → (k, v) ∈ fs.toList → wfJson v = true
  | .nil, k, v, _, hm => by simp [JObj.toList] at hm
  | .cons k' v' tl, k, v, hwf, hm => by
    simp only [wfObj, Bool.and_eq_true, Bool.not_eq_true'] at hwf
    obtain ⟨⟨_, hv'⟩, htl⟩ := hwf
    simp only [JObj.toList, List.mem_cons, Prod.mk.injEq] at hm
    rcases hm with ⟨rfl, rfl⟩ | hm
    · exact hv'
    · exact wf_of_mem tl k v htl hm

theorem sizeJson_pos : ∀ (j : Json), 1 ≤ sizeJson j := by
  intro j; cases j <;> simp [sizeJson]

/-! ## Idempotence of the recursive merge -/

/-- If every entry of the overlay `u` is already bound identically in `d`
(and the entries are well-formed), then merging `u` into `d` returns `d`
unchanged. -/
theorem rupdate_self_aux : ∀ (n : Nat) (u d : JObj), sizeObj u ≤ n →
    (∀ k v, (k, v) ∈ u.toList → d.lookup k = some v) →
    (∀ k v, (k, v) ∈ u.toList → wfJson v = true) →
    rupdate d u = some d := by
  intro n
  induction n with
  | zero =>
    intro u d hs _ _
    cases u with
    | nil => simp [rupdate]
    | cons k v tl =>
      exfalso
      have := sizeJson_pos v
      simp only [sizeObj] at hs
      omega
  | succ n ih =>
    intro u d hs h1 h2
    cases u with
    | nil => simp [rupdate]
    | cons k v tl =>
      have hl : d.lookup k = some v := h1 k v (by simp [JObj.toList])
      have hstl : sizeObj tl ≤ n := by
        have := sizeJson_pos v; simp only [sizeObj] at hs; omega
      have h1tl : ∀ k' v', (k', v') ∈ tl.toList → d.lookup k' = some v' :=
        fun k' v' hm => h1 k' v' (by simp [JObj.toList, hm])
      have h2tl : ∀ k' v', (k', v') ∈ tl.toList → wfJson v' = true :=
        fun k' v' hm => h2 k' v' (by simp [JObj.toList, hm])
      have hset : d.set k v = d := set_self d k v hl
      cases v with
      | obj vfs =>
        have hwv : wfObj vfs = true := by
          have := h2 k (.obj vfs) (by simp [JObj.toList])
          simpa [wfJson] using this
        have hsv : sizeObj vfs ≤ n := by
          simp only [sizeObj, sizeJson] at hs; omega
        have hself : rupdate vfs vfs = some vfs :=
          ih vfs vfs hsv
            (fun k' v' hm => lookup_of_mem_wf vfs k' v' hwv hm)
            (fun k' v' hm => wf_of_mem vfs k' v' hwv hm)
        simp only [rupdate, hl, hself]
        rw [hset]
        exact ih tl d hstl h1tl h2tl
      | null => simp only [rupdate]; rw [hset]; exact ih tl d hstl h1tl h2tl
      | bool b => simp only [rupdate]; rw [hset]; exact ih tl d hstl h1tl h2tl
      | num m => simp only [rupdate]; rw [hset]; exact ih tl d hstl h1tl h2tl
      | str s => simp only [rupdate]; rw [hset]; exact ih tl d hstl h1tl h2tl
      | arr xs => simp only [rupdate]; rw [hset]; exact ih tl d hstl h1tl h2tl

/-- Claim C8: the Topology Resolver's deep merge is idempotent — for every
already-resolved (hence duplicate-key-free) instance configuration `c`,
recursively merging `c` with itself produces `c` again. -/
theorem c8_recursive_update_idempotent (c : JObj) (h : wfObj c = true) :
    rupdate c c = some c :=
  rupdate_self_aux (sizeObj c) c c le_rfl
    (fun k v hm => lookup_of_mem_wf c k v h hm)
    (fun k v hm => wf_of_mem c k v h hm)

/-- Witness for C8: idempotence at a concrete nested configuration. -/
theorem c8_witness :
    wfObj (.cons "kp" (.num 1)
      (.cons "nested" (.obj (.cons "a" (.num 1) .nil)) .nil)) = true ∧
    rupdate
      (.cons "kp" (.num 1)
        (.cons "nested" (.obj (.cons "a" (.num 1) .nil)) .nil))
      (.cons "kp" (.num 1)
        (.cons "nested" (.obj (.cons "a" (.num 1) .nil)) .nil))
    = some (.cons "kp" (.num 1)
        (.cons "nested" (.obj (.cons "a" (.num 1) .nil)) .nil)) :=
  ⟨by decide, c8_recursive_update_idempotent _ (by decide)⟩

/-! ## The normalizer is the identity on comment-free text -/

/-- While no `//` or `/*` occurs outside a string literal, the machine of
`strip_jsonc` never enters a comment state and copies every character. -/
theorem stripAux_of_ok : ∀ (n : Nat) (t : List Char) (i : Nat) (inS : Bool) (acc : List Char),
    t.length ≤ i + n → okAux t n i inS = true →
    stripAux t n i inS false false acc = acc.reverse ++ t.drop i := by
  intro n
  induction n with
  | zero =>
    intro t i inS acc hlen _
    have hd : t.drop i = [] := List.drop_eq_nil_of_le (by omega)
    simp [stripAux, hd]
  | succ n ih =>
    intro t i inS acc hlen hok
    by_cases hi : i < t.length
    case neg =>
      have hd : t.drop i = [] := List.drop_eq_nil_of_le (by omega)
      simp [stripAux, hi, hd]
    case pos =>
      have hdrop : t.drop i = t.getD i ' ' :: t.drop (i+1) := by
        rw [List.getD_eq_getElem t ' ' hi]
        exact List.drop_eq_getElem_cons hi
      simp only [stripAux, okAux, hi, if_true, if_pos] at hok ⊢
      by_cases hc : t.getD i ' ' = '"'
      case pos =>
        simp only [hc] at hok ⊢
        simp only [beq_self_eq_true, Bool.not_false, Bool.and_self, Bool.true_and, if_true] at hok ⊢
        rw [ih _ _ _ ('\"' :: acc) (by omega) hok]
        rw [hdrop, hc]
        simp
      case neg =>
        have hcb : (t.getD i ' ' == '\"') = false := beq_eq_false_iff_ne.mpr hc
        simp only [hcb, Bool.false_and, if_false] at hok ⊢
        cases hs : inS <;>
          cases hb1 : (t.getD i ' ' == '/') <;>
          cases hb2 : (t.getD (i + 1) '\x00' == '/') <;>
          cases hb3 : (t.getD (i + 1) '\x00' == '*') <;>
          simp only [hs, hb1, hb2, hb3, Bool.false_and, Bool.true_and, Bool.and_false,
            Bool.and_true, Bool.and_self, Bool.not_false, Bool.not_true, Bool.or_self,
            Bool.false_or, Bool.true_or, Bool.or_false, Bool.or_true, if_true, if_false,
            Bool.false_eq_true, Bool.true_eq_false] at hok ⊢ <;>
          first
            | exact absurd hok Bool.false_ne_true
            | (rw [ih _ _ _ (t.getD i ' ' :: acc) (by omega) hok, hdrop]; simp)

/-- Claim C9: for every input text in which every `//` and `/*` sequence
occurs inside a properly quoted and escaped string literal (tracked with
the claim's escape rule), `strip_jsonc` returns the input unchanged. -/
theorem c9_strip_jsonc_comment_free_id (s : String)
    (h : commentsOnlyInStrings s = true) : stripJsonc s = s := by
  unfold stripJsonc
  unfold commentsOnlyInStrings at h
  rw [stripAux_of_ok s.data.length s.data 0 false [] (by omega) h]
  simp

/-- Witness for C9: the URL example normalizes unchanged. -/
theorem c9_witness :
    commentsOnlyInStrings "\x7b\"url\": \"http://example.com\"\x7d" = true ∧
    stripJsonc "\x7b\"url\": \"http://example.com\"\x7d"
      = "\x7b\"url\": \"http://example.com\"\x7d" :=
  ⟨by decide, c9_strip_jsonc_comment_free_id _ (by decide)⟩

/-! ## Domain detection lemmas -/

/-- The result of the inner prefix loop of `detect_domain_from_relpath`
for a single path segment: the first table entry whose prefix matches,
paired with the segment itself. -/
def matchSeg (part : String) : Option (String × Nat) :=
  (DOMAIN_WEIGHTS.find? (fun pw => strStartsWith part pw.1)).map (fun pw => (part, pw.2))

/-- `detect_domain_from_relpath` is the left fold of `matchSeg` with
default accumulator `("unknown", 999)`. -/
theorem detect_eq_fold (parts : List String) :
    detectDomainFromRelpath parts
      = parts.foldl (fun acc part => (matchSeg part).getD acc) ("unknown", 999) := by
  unfold detectDomainFromRelpath matchSeg
  congr 1
  funext acc part
  cases DOMAIN_WEIGHTS.find? (fun pw => strStartsWith part pw.1) <;> simp

/-- Segments without a recognized prefix leave the accumulator alone. -/
theorem fold_keep : ∀ (post : List String) (acc : String × Nat),
    (∀ s ∈ post, matchSeg s = none) →
    post.foldl (fun acc part => (matchSeg part).getD acc) acc = acc := by
  intro post
  induction post with
  | nil => intro acc _; rfl
  | cons p ps ih =>
    intro acc hp
    have hp0 : matchSeg p = none := hp p (by simp)
    simp only [List.foldl_cons, hp0, Option.getD_none]
    exact ih acc (fun s hs => hp s (by simp [hs]))

/-- Conversion between a literal prefix and its `"0" ++ toString w ++ "_"`
presentation. -/
theorem strStartsWith_code (seg : String) (w : Nat) (p : String)
    (hp : "0" ++ toString w ++ "_" = p) (h : strStartsWith seg p = true) :
    strStartsWith seg ("0" ++ toString w ++ "_") = true := by
  rw [hp]; exact h

/-- A matching segment reports itself as the domain, with the numeric
value of its two-digit code (necessarily one of `01` … `06`) as weight. -/
theorem matchSeg_cases (seg : String) (r : String × Nat)
    (h : matchSeg seg = some r) :
    r.1 = seg ∧ 1 ≤ r.2 ∧ r.2 ≤ 6 ∧
      strStartsWith seg ("0" ++ toString r.2 ++ "_") = true := by
  unfold matchSeg DOMAIN_WEIGHTS at h
  cases h1 : strStartsWith seg "01_" <;> cases h2 : strStartsWith seg "02_" <;>
    cases h3 : strStartsWith seg "03_" <;> cases h4 : strStartsWith seg "04_" <;>
    cases h5 : strStartsWith seg "05_" <;> cases h6 : strStartsWith seg "06_" <;>
    simp [List.find?, h1, h2, h3, h4, h5, h6] at h <;>
    (obtain ⟨rfl, rfl⟩ := h; refine ⟨rfl, by omega, by omega, ?_⟩) <;>
    first
      | exact strStartsWith_code seg 1 "01_" (by decide) h1
      | exact strStartsWith_code seg 2 "02_" (by decide) h2
      | exact strStartsWith_code seg 3 "03_" (by decide) h3
      | exact strStartsWith_code seg 4 "04_" (by decide) h4
      | exact strStartsWith_code seg 5 "05_" (by decide) h5
      | exact strStartsWith_code seg 6 "06_" (by decide) h6

/-- The fold either never fires (accumulator preserved) or returns the
`matchSeg` result of some segment of the list. -/
theorem fold_char : ∀ (parts : List String) (acc : String × Nat),
    parts.foldl (fun acc part => (matchSeg part).getD acc) acc = acc ∨
    ∃ seg ∈ parts,
      matchSeg seg
        = some (parts.foldl (fun acc part => (matchSeg part).getD acc) acc) := by
  intro parts
  induction parts with
  | nil => intro acc; left; rfl
  | cons p ps ih =>
    intro acc
    simp only [List.foldl_cons]
    rcases ih ((matchSeg p).getD acc) with h | ⟨seg, hm, hs⟩
    · rw [h]
      cases hp : matchSeg p with
      | none => left; simp [hp]
      | some r => right; exact ⟨p, by simp, by simp [hp]⟩
    · right; exact ⟨seg, by simp [hm], hs⟩

/-- Claim C2 (amended): when several path segments carry a recognized
domain prefix, `detect_domain_from_relpath` returns the domain and weight
of the LAST matching segment — the inner `break` only leaves the prefix
table loop, so later matching segments overwrite earlier ones. -/
theorem c2_last_matching_segment_wins (pre : List String) (seg : String)
    (post : List String) (r : String × Nat)
    (hm : matchSeg seg = some r) (hp : ∀ s ∈ post, matchSeg s = none) :
    detectDomainFromRelpath (pre ++ seg :: post) = r := by
  rw [detect_eq_fold, List.foldl_append, List.foldl_cons, hm, Option.getD_some]
  exact fold_keep post r hp

/-- Counterexample for C2 as stated: with two matching segments, the claim
demands the first match `("01_a", 1)`, but the code returns the later
match `("02_b", 2)`. -/
theorem c2_counterexample :
    detectDomainFromRelpath ["spec", "01_a", "02_b", "f.jsonc"] = ("02_b", 2) ∧
    (("02_b", 2) : String × Nat) ≠ ("01_a", 1) := by
  constructor
  · decide
  · decide

/-- Witness for C2 (amended) at a concrete path. -/
theorem c2_witness :
    matchSeg "02_b" = some ("02_b", 2) ∧
    (∀ s ∈ ["f.jsonc"], matchSeg s = none) ∧
    detectDomainFromRelpath ["spec", "01_a", "02_b", "f.jsonc"] = ("02_b", 2) :=
  ⟨by decide, by decide,
    c2_last_matching_segment_wins ["spec", "01_a"] "02_b" ["f.jsonc"]
      ("02_b", 2) (by decide) (by decide)⟩

/-- A match with the prefix of code `c` pins down the first three
characters of the segment. -/
theorem startsWith_code_decomp (seg p : String) (c : Char)
    (hp : p.data = ['0', c, '_'])
    (h : strStartsWith seg p = true) :
    ∃ rest, seg.data = '0' :: c :: '_' :: rest := by
  unfold strStartsWith at h
  rw [hp] at h
  rcases List.isPrefixOf_iff_prefix.mp h with ⟨rest, hr⟩
  exact ⟨rest, by simpa using hr.symm⟩

/-- A segment of code `c` does not start with the prefix of a different
code `y`. -/
theorem startsWith_code_false (seg p : String) (c y : Char) (rest : List Char)
    (hseg : seg.data = '0' :: c :: '_' :: rest)
    (hp : p.data = ['0', y, '_'])
    (hne : (y == c) = false) :
    strStartsWith seg p = false := by
  unfold strStartsWith
  rw [hseg, hp]
  simp [List.isPrefixOf, hne]

/-- A segment starting with the recognized prefix of code `w`
(`1 ≤ w ≤ 6`) matches, reporting itself as domain and `w` as weight. -/
theorem matchSeg_of_code (seg : String) (w : Nat) (hw1 : 1 ≤ w) (hw2 : w ≤ 6)
    (h : strStartsWith seg ("0" ++ toString w ++ "_") = true) :
    matchSeg seg = some (seg, w) := by
  have hw : w = 1 ∨ w = 2 ∨ w = 3 ∨ w = 4 ∨ w = 5 ∨ w = 6 := by omega
  rcases hw with rfl | rfl | rfl | rfl | rfl | rfl
  · rw [show ("0" ++ toString (1 : Nat) ++ "_") = "01_" from by decide] at h
    unfold matchSeg DOMAIN_WEIGHTS
    simp [List.find?, h]
  · rw [show ("0" ++ toString (2 : Nat) ++ "_") = "02_" from by decide] at h
    obtain ⟨rest, hseg⟩ := startsWith_code_decomp seg "02_" '2' rfl h
    have f1 := startsWith_code_false seg "01_" '2' '1' rest hseg rfl (by decide)
    unfold matchSeg DOMAIN_WEIGHTS
    simp [List.find?, f1, h]
  · rw [show ("0" ++ toString (3 : Nat) ++ "_") = "03_" from by decide] at h
    obtain ⟨rest, hseg⟩ := startsWith_code_decomp seg "03_" '3' rfl h
    have f1 := startsWith_code_false seg "01_" '3' '1' rest hseg rfl (by decide)
    have f2 := startsWith_code_false seg "02_" '3' '2' rest hseg rfl (by decide)
    unfold matchSeg DOMAIN_WEIGHTS
    simp [List.find?, f1, f2, h]
  · rw [show ("0" ++ toString (4 : Nat) ++ "_") = "04_" from by decide] at h
    obtain ⟨rest, hseg⟩ := startsWith_code_decomp seg "04_" '4' rfl h
    have f1 := startsWith_code_false seg "01_" '4' '1' rest hseg rfl (by decide)
    have f2 := startsWith_code_false seg "02_" '4' '2' rest hseg rfl (by decide)
    have f3 := startsWith_code_false seg "03_" '4' '3' rest hseg rfl (by decide)
    unfold matchSeg DOMAIN_WEIGHTS
    simp [List.find?, f1, f2, f3, h]
  · rw [show ("0" ++ toString (5 : Nat) ++ "_") = "05_" from by decide] at h
    obtain ⟨rest, hseg⟩ := startsWith_code_decomp seg "05_" '5' rfl h
    have f1 := startsWith_code_false seg "01_" '5' '1' rest hseg rfl (by decide)
    have f2 := startsWith_code_false seg "02_" '5' '2' rest hseg rfl (by decide)
    have f3 := startsWith_code_false seg "03_" '5' '3' rest hseg rfl (by decide)
    have f4 := startsWith_code_false seg "04_" '5' '4' rest hseg rfl (by decide)
    unfold matchSeg DOMAIN_WEIGHTS
    simp [List.find?, f1, f2, f3, f4, h]
  · rw [show ("0" ++ toString (6 : Nat) ++ "_") = "06_" from by decide] at h
    obtain ⟨rest, hseg⟩ := startsWith_code_decomp seg "06_" '6' rfl h
    have f1 := startsWith_code_false seg "01_" '6' '1' rest hseg rfl (by decide)
    have f2 := startsWith_code_false seg "02_" '6' '2' rest hseg rfl (by decide)
    have f3 := startsWith_code_false seg "03_" '6' '3' rest hseg rfl (by decide)
    have f4 := startsWith_code_false seg "04_" '6' '4' rest hseg rfl (by decide)
    have f5 := startsWith_code_false seg "05_" '6' '5' rest hseg rfl (by decide)
    unfold matchSeg DOMAIN_WEIGHTS
    simp [List.find?, f1, f2, f3, f4, f5, h]

/-- Claim C3 (amended): only the six prefixes `01_` … `06_` are in
`DOMAIN_WEIGHTS`.  (1) A path none of whose segments matches them gets
domain `"unknown"` and weight `999` — including segments with other
two-digit codes such as `00_` or `07_`; (2) a segment starting with the
recognized prefix of code `w` (with no later matching segment) IS
assigned as the domain, with `w`'s numeric value as the weight; (3) every
result is either `("unknown", 999)` or a matching segment paired with its
code's value. -/
theorem c3_recognized_codes_are_01_to_06 :
    (∀ parts : List String, (∀ s ∈ parts, matchSeg s = none) →
      detectDomainFromRelpath parts = ("unknown", 999)) ∧
    (∀ (pre : List String) (seg : String) (post : List String) (w : Nat),
      1 ≤ w → w ≤ 6 →
      strStartsWith seg ("0" ++ toString w ++ "_") = true →
      (∀ s ∈ post, matchSeg s = none) →
      detectDomainFromRelpath (pre ++ seg :: post) = (seg, w)) ∧
    (∀ parts : List String,
      detectDomainFromRelpath parts = ("unknown", 999) ∨
      ∃ seg ∈ parts, ∃ w, 1 ≤ w ∧ w ≤ 6 ∧
        strStartsWith seg ("0" ++ toString w ++ "_") = true ∧
        detectDomainFromRelpath parts = (seg, w)) := by
  refine ⟨?_, ?_, ?_⟩
  · intro parts hp
    rw [detect_eq_fold]
    exact fold_keep parts _ hp
  · intro pre seg post w hw1 hw2 hsw hp
    have hm := matchSeg_of_code seg w hw1 hw2 hsw
    rw [detect_eq_fold, List.foldl_append, List.foldl_cons, hm, Option.getD_some]
    exact fold_keep post (seg, w) hp
  · intro parts
    rcases fold_char parts ("unknown", 999) with h | ⟨seg, hmem, hs⟩
    · left; rw [detect_eq_fold]; exact h
    · right
      rw [detect_eq_fold] at *
      obtain ⟨h1, h2, h3, h4⟩ := matchSeg_cases seg _ hs
      refine ⟨seg, hmem, (parts.foldl (fun acc part => (matchSeg part).getD acc)
        ("unknown", 999)).2, h2, h3, ?_, ?_⟩
      · exact h4
      · rw [← h1]

/-- Counterexample for C3 as stated: the segment `07_extras` starts with
the two-digit code `07`, but the scanner does not recognize it — the
record gets domain `"unknown"` and weight `999`, not `("07_extras", 7)`. -/
theorem c3_counterexample :
    strStartsWith "07_extras" "07_" = true ∧
    detectDomainFromRelpath ["spec", "07_extras", "x.jsonc"] = ("unknown", 999) ∧
    detectDomainFromRelpath ["spec", "07_extras", "x.jsonc"] ≠ ("07_extras", 7) := by
  refine ⟨by decide, by decide, by decide⟩

/-- Witness for C3 (amended): an unmatched path stays unknown, and a
`03_`-coded segment becomes the domain with weight 3. -/
theorem c3_witness :
    detectDomainFromRelpath ["spec", "misc", "x.jsonc"] = ("unknown", 999) ∧
    detectDomainFromRelpath ["spec", "03_cognition", "y.jsonc"]
      = ("03_cognition", 3) :=
  ⟨c3_recognized_codes_are_01_to_06.1 ["spec", "misc", "x.jsonc"] (by decide),
    c3_recognized_codes_are_01_to_06.2.1 ["spec"] "03_cognition" ["y.jsonc"] 3
      (by decide) (by decide) (by decide) (by decide)⟩

/-! ## Profile expansion (claim C1) -/

/-- The profile `P` of the claim: `{"kp": 1, "nested": {"a": 1, "b": 2}}`. -/
def profileP : JObj :=
  .cons "kp" (.num 1)
    (.cons "nested" (.obj (.cons "a" (.num 1) (.cons "b" (.num 2) .nil))) .nil)

/-- The instance of the claim:
`{"use_profile_ref_str": "P", "nested": {"b": 9}}`. -/
def instanceP : JObj :=
  .cons "use_profile_ref_str" (.str "P")
    (.cons "nested" (.obj (.cons "b" (.num 9) .nil)) .nil)

/-- What `_expand_profiles` actually produces for that instance: the
claimed fields plus the copied `use_profile_ref_str` reference. -/
def resolvedBody : JObj :=
  .cons "kp" (.num 1)
    (.cons "nested" (.obj (.cons "a" (.num 1) (.cons "b" (.num 9) .nil)))
      (.cons "use_profile_ref_str" (.str "P") .nil))

/-- The configuration the claim says is produced, with no other keys:
`{"kp": 1, "nested": {"a": 1, "b": 9}}`. -/
def claimedBody : JObj :=
  .cons "kp" (.num 1)
    (.cons "nested" (.obj (.cons "a" (.num 1) (.cons "b" (.num 9) .nil))) .nil)

/-- Expansion resolves each instance entry in place: a successful
`_expand_profiles` run maps the entry found under `k` to its resolved
configuration. -/
theorem resolveInstances_lookup : ∀ (pv : Json) (l em : JObj) (k : String)
    (inst : JObj), resolveInstances pv l = some em →
    l.lookup k = some (.obj inst) →
    ∃ r, resolveInstance pv inst = some r ∧ em.lookup k = some r
  | pv, .nil, em, k, inst, _, hl => by simp [JObj.lookup] at hl
  | pv, .cons k' v tl, em, k, inst, h, hl => by
    by_cases hk : k' = k
    · subst hk
      simp [JObj.lookup] at hl
      subst hl
      simp only [resolveInstances] at h
      cases hr : resolveInstance pv inst with
      | none => rw [hr] at h; exact absurd h (by simp)
      | some r =>
        rw [hr] at h
        cases hrest : resolveInstances pv tl with
        | none => rw [hrest] at h; exact absurd h (by simp)
        | some rest =>
          rw [hrest] at h
          obtain rfl : JObj.cons k' r rest = em := by
            simpa using h
          exact ⟨r, rfl, by simp [JObj.lookup]⟩
    · simp only [JObj.lookup, if_neg hk] at hl
      cases v with
      | obj inst' =>
        simp only [resolveInstances] at h
        cases hr : resolveInstance pv inst' with
        | none => rw [hr] at h; exact absurd h (by simp)
        | some r =>
          rw [hr] at h
          cases hrest : resolveInstances pv tl with
          | none => rw [hrest] at h; exact absurd h (by simp)
          | some rest =>
            rw [hrest] at h
            obtain rfl : JObj.cons k' r rest = em := by simpa using h
            obtain ⟨r', hr', hl'⟩ := resolveInstances_lookup pv tl rest k inst hrest hl
            exact ⟨r', hr', by simp [JObj.lookup, if_neg hk, hl']⟩
      | null => simp [resolveInstances] at h
      | bool b => simp [resolveInstances] at h
      | num n => simp [resolveInstances] at h
      | str s => simp [resolveInstances] at h
      | arr xs => simp [resolveInstances] at h

/-- `resolveInstance` on the claim's instance, against any profiles map
binding `P` to the claim's profile. -/
theorem resolveInstance_instanceP (profiles : JObj)
    (hP : profiles.lookup "P" = some (.obj profileP)) :
    resolveInstance (.obj profiles) instanceP = some (.obj resolvedBody) := by
  simp only [resolveInstance, profileBase,
    show instanceP.lookup "use_profile_ref_str" = some (.str "P") from by decide,
    show truthy (.str "P") = true from by decide, if_true, hP,
    show rupdate profileP instanceP = some resolvedBody from by decide,
    show instanceP.lookup "overrides" = none from by decide]

/-- Claim C1 (amended): for any topology whose profiles map binds `P` to
the profile `{"kp": 1, "nested": {"a": 1, "b": 2}}` and whose instances map
binds some name to the claim's instance, the resolved configuration is
`{"kp": 1, "nested": {"a": 1, "b": 9}, "use_profile_ref_str": "P"}` — the
scalar `kp` inherited, the nested map merged key-by-key, but ALSO the
instance's own `use_profile_ref_str` reference, which `_recursive_update`
copies into the result. -/
theorem c1_profile_resolution (topo profiles instances : JObj)
    (iname : String) (expanded : JObj)
    (hp : topo.lookup "control_profiles_map" = some (.obj profiles))
    (hi : topo.lookup "joint_actuator_mapping_map" = some (.obj instances))
    (hP : profiles.lookup "P" = some (.obj profileP))
    (hInst : instances.lookup iname = some (.obj instanceP))
    (hex : expandProfiles topo = some expanded) :
    ∃ em, expanded.lookup "joint_actuator_mapping_map" = some (.obj em) ∧
      em.lookup iname = some (.obj resolvedBody) := by
  have hne : topo ≠ .nil := by
    intro h; rw [h] at hp; simp [JObj.lookup] at hp
  unfold expandProfiles at hex
  rw [if_neg hne] at hex
  simp only [hp, hi, Option.getD_some] at hex
  cases hres : resolveInstances (.obj profiles) instances with
  | none => rw [hres] at hex; exact absurd hex (by simp)
  | some expd =>
    rw [hres] at hex
    obtain rfl : JObj.cons "joint_actuator_mapping_map" (.obj expd) .nil
        = expanded := by simpa using hex
    refine ⟨expd, by simp [JObj.lookup], ?_⟩
    obtain ⟨r, hr, hl⟩ :=
      resolveInstances_lookup (.obj profiles) instances expd iname instanceP
        hres hInst
    rw [resolveInstance_instanceP profiles hP] at hr
    obtain rfl : Json.obj resolvedBody = r := by simpa using hr
    exact hl

/-- Counterexample for C1 as stated: on the claim's own topology the
resolved configuration is not `{"kp": 1, "nested": {"a": 1, "b": 9}}`
alone — the key `use_profile_ref_str` is also present. -/
theorem c1_counterexample :
    expandProfiles
      (.cons "control_profiles_map" (.obj (.cons "P" (.obj profileP) .nil))
        (.cons "joint_actuator_mapping_map"
          (.obj (.cons "J" (.obj instanceP) .nil)) .nil))
      = some (.cons "joint_actuator_mapping_map"
          (.obj (.cons "J" (.obj resolvedBody) .nil)) .nil) ∧
    Json.obj resolvedBody ≠ Json.obj claimedBody ∧
    resolvedBody.lookup "use_profile_ref_str" = some (.str "P") :=
  ⟨by decide, by decide, by decide⟩

/-- Witness for C1 (amended) at the concrete topology. -/
theorem c1_witness :
    ∃ em, (JObj.cons "joint_actuator_mapping_map"
        (.obj (.cons "J" (.obj resolvedBody) .nil)) .nil).lookup
          "joint_actuator_mapping_map" = some (.obj em) ∧
      em.lookup "J" = some (.obj resolvedBody) :=
  c1_profile_resolution
    (.cons "control_profiles_map" (.obj (.cons "P" (.obj profileP) .nil))
      (.cons "joint_actuator_mapping_map"
        (.obj (.cons "J" (.obj instanceP) .nil)) .nil))
    (.cons "P" (.obj profileP) .nil)
    (.cons "J" (.obj instanceP) .nil)
    "J" _
    (by decide) (by decide) (by decide) (by decide) (by decide)

/-! ## Gains-line emission (claims C4, C5) -/

/-- The key `k` is reachable by the bridge's `_extract_val`: present
directly or inside a dict-valued recognized sub-container. -/
def hasKeyDeep (topo : JObj) (k : String) : Bool :=
  topo.hasKey k || subContainersBridge.any (fun sub =>
    match topo.lookup sub with
    | some (.obj m) => m.hasKey k
    | _ => false)

/-- Direct search misses when none of the keys is present. -/
theorem tryKeysIn_none : ∀ (fs : JObj) (keys : List String),
    (∀ k ∈ keys, fs.hasKey k = false) → tryKeysIn fs keys = none := by
  intro fs keys
  induction keys with
  | nil => intro _; rfl
  | cons k ks ih =>
    intro h
    have hk := hasKey_false_lookup (h k (by simp))
    simp only [tryKeysIn, hk]
    exact ih (fun k' hk' => h k' (by simp [hk']))

/-- Sub-container search misses when no recognized dict-valued
sub-container holds any of the keys. -/
theorem trySubContainers_none : ∀ (data : JObj) (keys : List String)
    (subs : List String),
    (∀ sub ∈ subs, ∀ k ∈ keys,
      (match data.lookup sub with
        | some (.obj m) => m.hasKey k
        | _ => false) = false) →
    trySubContainers data keys subs = none := by
  intro data keys subs
  induction subs with
  | nil => intro _; rfl
  | cons sub rest ih =>
    intro h
    have hrest := ih (fun s hs k hk => h s (by simp [hs]) k hk)
    cases hv : data.lookup sub with
    | none => simpa [trySubContainers, hv] using hrest
    | some v =>
      cases v with
      | obj m =>
        have hm : tryKeysIn m keys = none := by
          apply tryKeysIn_none
          intro k hk
          have := h sub (by simp) k hk
          rw [hv] at this
          simpa using this
        simp [trySubContainers, hv, hm, hrest]
      | null => simpa [trySubContainers, hv] using hrest
      | bool b => simpa [trySubContainers, hv] using hrest
      | num n => simpa [trySubContainers, hv] using hrest
      | str s => simpa [trySubContainers, hv] using hrest
      | arr xs => simpa [trySubContainers, hv] using hrest

/-- `_extract_val` falls back to its default when the keys are absent
both directly and in every recognized sub-container. -/
theorem extractVal_default (topo : JObj) (keys : List String) (default : Json)
    (h : ∀ k ∈ keys, hasKeyDeep topo k = false) :
    extractVal topo keys default = default := by
  have h1 : ∀ k ∈ keys, topo.hasKey k = false := by
    intro k hk
    have := h k hk
    simp only [hasKeyDeep, Bool.or_eq_false_iff] at this
    exact this.1
  have h2 : ∀ sub ∈ subContainersBridge, ∀ k ∈ keys,
      (match topo.lookup sub with
        | some (.obj m) => m.hasKey k
        | _ => false) = false := by
    intro sub hs k hk
    have := h k hk
    simp only [hasKeyDeep, Bool.or_eq_false_iff, List.any_eq_false] at this
    exact Bool.not_eq_true _ ▸ (by simpa using this.2 sub hs)
  unfold extractVal
  rw [tryKeysIn_none topo keys h1, trySubContainers_none topo keys _ h2]

/-- Claim C5: for a joint whose resolved topology carries stiffness 50
and damping 2 (wherever `_extract_val` finds them) and no explicit
kp/ki/kd gain key, directly or in any recognized sub-container, the
bridge's generated gains line shows `p: 50` and `d: 2` — stiffness used
as approximate proportional gain, damping as approximate derivative
gain (with `i` left at its `0.0` default). -/
theorem c5_stiffness_damping_fallback (topo : JObj)
    (hng : ∀ k ∈ ["kp_position_float", "kp", "ki_position_float", "ki",
      "kd_position_float", "kd"], hasKeyDeep topo k = false)
    (hs : extractVal topo ["stiffness_nm_rad_float", "stiffness"] (.num 0) = .num 50)
    (hd : extractVal topo ["damping_nms_rad_float", "damping"] (.num 0) = .num 2) :
    bridgeGainsEntry topo = some (some ⟨.num 50, .num 0, .num 2⟩) := by
  have hkp : extractVal topo ["kp_position_float", "kp"] (.num 0) = .num 0 := by
    apply extractVal_default
    intro k hk
    simp only [List.mem_cons, List.not_mem_nil, or_false] at hk
    rcases hk with rfl | rfl <;> exact hng _ (by simp)
  have hki : extractVal topo ["ki_position_float", "ki"] (.num 0) = .num 0 := by
    apply extractVal_default
    intro k hk
    simp only [List.mem_cons, List.not_mem_nil, or_false] at hk
    rcases hk with rfl | rfl <;> exact hng _ (by simp)
  have hkd : extractVal topo ["kd_position_float", "kd"] (.num 0) = .num 0 := by
    apply extractVal_default
    intro k hk
    simp only [List.mem_cons, List.not_mem_nil, or_false] at hk
    rcases hk with rfl | rfl <;> exact hng _ (by simp)
  simp only [bridgeGainsEntry, hkp, hki, hkd, hs, hd]
  simp [jsonEq0, jsonGt0]

/-- Claim C4 (amended): the synapse generator emits a per-joint gains
line exactly when at least one of the three resolved gains is nonzero;
the bridge generator instead guards the line with `kp > 0 or kd > 0`
after the stiffness fallback, so a joint whose only nonzero gain is the
integral gain gets NO line from it, and a joint with positive `p` or `d`
does. -/
theorem c4_gains_line_emission :
    (∀ (topo : JObj) (np ni nd : Int),
      synExtractVal topo ["kp_position_float", "kp"] (.num 0) = some (.num np) →
      synExtractVal topo ["ki_position_float", "ki"] (.num 0) = some (.num ni) →
      synExtractVal topo ["kd_position_float", "kd"] (.num 0) = some (.num nd) →
      synGainsEntry topo
        = some (if np ≠ 0 ∨ ni ≠ 0 ∨ nd ≠ 0
            then some ⟨.num np, .num ni, .num nd⟩ else none)) ∧
    (∀ (topo : JObj) (ni : Int),
      extractVal topo ["kp_position_float", "kp"] (.num 0) = .num 0 →
      extractVal topo ["ki_position_float", "ki"] (.num 0) = .num ni →
      extractVal topo ["kd_position_float", "kd"] (.num 0) = .num 0 →
      extractVal topo ["stiffness_nm_rad_float", "stiffness"] (.num 0) = .num 0 →
      bridgeGainsEntry topo = some none) ∧
    (∀ (topo : JObj) (np ni nd : Int),
      extractVal topo ["kp_position_float", "kp"] (.num 0) = .num np →
      extractVal topo ["ki_position_float", "ki"] (.num 0) = .num ni →
      extractVal topo ["kd_position_float", "kd"] (.num 0) = .num nd →
      (0 < np ∨ 0 < nd) →
      bridgeGainsEntry topo = some (some ⟨.num np, .num ni, .num nd⟩)) := by
  refine ⟨?_, ?_, ?_⟩
  · intro topo np ni nd hp hi hd
    simp only [synGainsEntry, hp, hi, hd, truthy]
    by_cases h : np ≠ 0 ∨ ni ≠ 0 ∨ nd ≠ 0
    · rw [if_pos h, if_pos]
      rcases h with h | h | h <;> simp [h]
    · rw [if_neg h]
      push_neg at h
      obtain ⟨rfl, rfl, rfl⟩ := h
      simp
  · intro topo ni hp hi hd hs
    simp only [bridgeGainsEntry, hp, hi, hd, hs]
    simp [jsonEq0, jsonGt0]
  · intro topo np ni nd hp hi hd hpos
    simp only [bridgeGainsEntry, hp, hi, hd]
    by_cases hnp : np = 0
    · subst hnp
      have hnd : ¬ nd = 0 := by omega
      have h0 : (0:Int) < nd := by omega
      simp [jsonEq0, jsonGt0, hnd, h0]
    · have : (jsonEq0 (.num np) && jsonEq0 (.num nd)) = false := by
        simp [jsonEq0, hnp]
      rw [if_neg (by simp [this])]
      rcases hpos with h | h
      · simp [jsonGt0, h]
      · by_cases hnp0 : (0:Int) < np
        · simp [jsonGt0, hnp0]
        · simp [jsonGt0, hnp0, h]

/-- Counterexample for C4 as stated: for a joint whose only nonzero
resolved gain is the integral gain `ki = 5`, the bridge generator emits
no gains line at all (the synapse generator does emit one). -/
theorem c4_counterexample :
    bridgeGainsEntry (.cons "ki" (.num 5) .nil) = some none ∧
    synGainsEntry (.cons "ki" (.num 5) .nil)
      = some (some ⟨.num 0, .num 5, .num 0⟩) ∧
    (5 : Int) ≠ 0 :=
  ⟨by decide, by decide, by decide⟩

/-- Witness for C4 (amended): a `kp = 3` joint through the synapse rule
and the `ki = 5` joint through the bridge rule. -/
theorem c4_witness :
    synGainsEntry (.cons "kp" (.num 3) .nil)
      = some (if (3 : Int) ≠ 0 ∨ (0 : Int) ≠ 0 ∨ (0 : Int) ≠ 0
          then some ⟨.num 3, .num 0, .num 0⟩ else none) ∧
    bridgeGainsEntry (.cons "ki" (.num 5) .nil) = some none :=
  ⟨c4_gains_line_emission.1 (.cons "kp" (.num 3) .nil) 3 0 0
      (by decide) (by decide) (by decide),
    c4_gains_line_emission.2.1 (.cons "ki" (.num 5) .nil) 5
      (by decide) (by decide) (by decide) (by decide)⟩

/-- Witness for C5 at the topology `{"stiffness": 50, "damping": 2}`. -/
theorem c5_witness :
    bridgeGainsEntry (.cons "stiffness" (.num 50) (.cons "damping" (.num 2) .nil))
      = some (some ⟨.num 50, .num 0, .num 2⟩) :=
  c5_stiffness_damping_fallback
    (.cons "stiffness" (.num 50) (.cons "damping" (.num 2) .nil))
    (by decide) (by decide) (by decide)

/-! ## The compiler command's duplicated scanner (claim C10) -/

/-- Claim C10: the scanner and indexer functions duplicated in
`commands/compiler.py` are extensionally equal to their counterparts in
`core/spec_unifier.py` — `detect_domain_from_relpath`,
`scan_spec_records` and `build_domain_maps` agree on every input, so the
integrity check (which uses the core versions) compares documents built
exactly as the compile command builds them. -/
theorem c10_compiler_matches_core :
    (∀ parts : List String,
      Compiler.detectDomainFromRelpath parts = detectDomainFromRelpath parts) ∧
    (∀ (parse : String → Option Json) (files : List ScanFile),
      Compiler.scanSpecRecords parse files = scanSpecRecords parse files) ∧
    (∀ records : List SpecRecord,
      Compiler.buildDomainMaps records = buildDomainMaps records) :=
  ⟨fun _ => rfl, fun _ _ => rfl, fun _ => rfl⟩

/-! ## Integrity-check theorems (claim C7) -/
/-- Python's `==` is reflexive on well-formed decoded values (fuel-driven
simultaneous induction over the three mutual shapes). -/
theorem pyEq_refl_fuel : ∀ n : Nat,
    (∀ j : Json, sizeJson j ≤ n → wfJson j = true → pyEq j j = true) ∧
    (∀ xs : JArr, sizeArr xs ≤ n → wfArr xs = true → pyEqArr xs xs = true) ∧
    (∀ fs fs0 : JObj, sizeObj fs ≤ n →
      (∀ k v, (k, v) ∈ fs.toList → fs0.lookup k = some v) →
      (∀ k v, (k, v) ∈ fs.toList → wfJson v = true) →
      pyEqObjSub fs fs0 = true) := by
  intro n
  induction n with
  | zero =>
    refine ⟨?_, ?_, ?_⟩
    · intro j hs _
      exact absurd (sizeJson_pos j) (by omega)
    · intro xs hs _
      cases xs with
      | nil => rfl
      | cons h tl => have := sizeJson_pos h; simp only [sizeArr] at hs; omega
    · intro fs fs0 hs _ _
      cases fs with
      | nil => rfl
      | cons k v tl => have := sizeJson_pos v; simp only [sizeObj] at hs; omega
  | succ n ih =>
    obtain ⟨ihj, iha, iho⟩ := ih
    refine ⟨?_, ?_, ?_⟩
    · intro j hs hw
      cases j with
      | null => rfl
      | bool b => simp [pyEq]
      | num m => simp [pyEq]
      | str s => simp [pyEq]
      | arr xs =>
        simp only [pyEq]
        exact iha xs (by simp only [sizeJson] at hs; omega) (by simpa [wfJson] using hw)
      | obj fs =>
        have hwo : wfObj fs = true := by simpa [wfJson] using hw
        have hso : sizeObj fs ≤ n := by simp only [sizeJson] at hs; omega
        simp only [pyEq, Bool.and_eq_true, beq_iff_eq]
        refine ⟨trivial, ?_⟩
        exact iho fs fs hso
          (fun k v hm => lookup_of_mem_wf fs k v hwo hm)
          (fun k v hm => wf_of_mem fs k v hwo hm)
    · intro xs hs hw
      cases xs with
      | nil => rfl
      | cons h tl =>
        simp only [wfArr, Bool.and_eq_true] at hw
        simp only [sizeArr] at hs
        simp only [pyEqArr, Bool.and_eq_true]
        exact ⟨ihj h (by omega) hw.1, iha tl (by omega) hw.2⟩
    · intro fs fs0 hs h1 h2
      cases fs with
      | nil => rfl
      | cons k v tl =>
        simp only [sizeObj] at hs
        simp only [pyEqObjSub, Bool.and_eq_true]
        constructor
        · rw [h1 k v (by simp [JObj.toList])]
          exact ihj v (by omega) (h2 k v (by simp [JObj.toList]))
        · exact iho tl fs0 (by omega)
            (fun k' v' hm => h1 k' v' (by simp [JObj.toList, hm]))
            (fun k' v' hm => h2 k' v' (by simp [JObj.toList, hm]))

/-- Python's `==` is reflexive on well-formed decoded values. -/
theorem pyEq_refl (j : Json) (h : wfJson j = true) : pyEq j j = true :=
  (pyEq_refl_fuel (sizeJson j)).1 j le_rfl h

/-- The machine document after `_normalize_machine_json`: the timestamp
is gone and everything else is untouched. -/
def normMachineDocFromStandard (rs : List RecordM) : Json :=
  .obj (.cons "meta"
    (.obj (.cons "standard" (.str "OpenRGD")
      (.cons "type" (.str "MACHINE_TWIN_FROM_STANDARD")
        (.cons "version" (.str "0.1.0")
          (.cons "note" (.str "Built from /standard JSON mirror.") .nil)))))
    (.cons "files" (filesJson rs) .nil))

/-- Normalizing a freshly built machine document erases exactly the
`generated_at` entry. -/
theorem normalize_machineDoc (rs : List RecordM) (ts : String) :
    normalizeMachineJson (machineDocFromStandard rs ts)
      = some (normMachineDocFromStandard rs) := rfl

/-- The `files` array is well-formed when every record content is. -/
theorem wf_filesJson : ∀ rs : List RecordM,
    (∀ r ∈ rs, wfJson r.content = true) → wfJson (filesJson rs) = true := by
  intro rs
  induction rs with
  | nil => intro _; rfl
  | cons r rest ih =>
    intro h
    have hr : wfJson r.content = true := h r (by simp)
    have hrest := ih (fun r' hr' => h r' (by simp [hr']))
    simp only [filesJson, List.map_cons, JArr.ofList, wfJson, wfArr,
      Bool.and_eq_true] at hrest ⊢
    refine ⟨?_, hrest⟩
    simp [fileEntryJson, wfJson, wfObj, JObj.hasKey, JObj.lookup, hr]

/-- The normalized machine document is well-formed when every record
content is. -/
theorem wf_normMachineDoc (rs : List RecordM)
    (h : ∀ r ∈ rs, wfJson r.content = true) :
    wfJson (normMachineDocFromStandard rs) = true := by
  have hf := wf_filesJson rs h
  simp only [filesJson, wfJson] at hf
  simp [normMachineDocFromStandard, filesJson, wfJson, wfObj, JObj.hasKey,
    JObj.lookup, hf]

/-- On documents with a dict-valued `meta` entry, `_normalize_machine_json`
computes exactly the spec's "remove `meta.generated_at`" normalization. -/
theorem normalize_shaped (fs m : JObj) (hm : fs.lookup "meta" = some (.obj m)) :
    normalizeMachineJson (.obj fs) = some (eraseGeneratedAt (.obj fs)) := by
  simp only [normalizeMachineJson, eraseGeneratedAt, hm, Option.getD_some]

/-- Claim C7: (1) machine twin documents built from identical source
records — hence differing at most in `meta.generated_at` — compare as
MATCH after normalization; (2) two documents (with dict-valued `meta`)
that still differ after removing `meta.generated_at`, i.e. differ in any
field outside it, compare as MISMATCH; and (3) the integrity command's
comparison stage exits with code 0 exactly when the human comparison and
the machine comparison both match, so a non-zero exit happens iff either
mismatches. -/
theorem c7_integrity_check :
    (∀ (rs : List RecordM) (t1 t2 : String) (n1 n2 : Json),
      (∀ r ∈ rs, wfJson r.content = true) →
      normalizeMachineJson (machineDocFromStandard rs t1) = some n1 →
      normalizeMachineJson (machineDocFromStandard rs t2) = some n2 →
      pyEq n1 n2 = true) ∧
    (∀ (fs1 fs2 m1 m2 : JObj) (n1 n2 : Json),
      fs1.lookup "meta" = some (.obj m1) →
      fs2.lookup "meta" = some (.obj m2) →
      normalizeMachineJson (.obj fs1) = some n1 →
      normalizeMachineJson (.obj fs2) = some n2 →
      pyEq (eraseGeneratedAt (.obj fs1)) (eraseGeneratedAt (.obj fs2)) = false →
      pyEq n1 n2 = false) ∧
    (∀ (curHuman benchHuman : String) (curMachine benchMachine n1 n2 : Json),
      normalizeMachineJson curMachine = some n1 →
      normalizeMachineJson benchMachine = some n2 →
      (checkIntegrityVerdict curHuman benchHuman curMachine benchMachine = some 0 ↔
        (normalizeHumanJsonc curHuman = normalizeHumanJsonc benchHuman ∧
          pyEq n1 n2 = true))) := by
  refine ⟨?_, ?_, ?_⟩
  · intro rs t1 t2 n1 n2 hwf h1 h2
    rw [normalize_machineDoc] at h1 h2
    obtain rfl : normMachineDocFromStandard rs = n1 := by simpa using h1
    obtain rfl : normMachineDocFromStandard rs = n2 := by simpa using h2
    exact pyEq_refl _ (wf_normMachineDoc rs hwf)
  · intro fs1 fs2 m1 m2 n1 n2 hm1 hm2 h1 h2 hne
    rw [normalize_shaped fs1 m1 hm1] at h1
    rw [normalize_shaped fs2 m2 hm2] at h2
    obtain rfl : eraseGeneratedAt (.obj fs1) = n1 := by simpa using h1
    obtain rfl : eraseGeneratedAt (.obj fs2) = n2 := by simpa using h2
    exact hne
  · intro curHuman benchHuman curMachine benchMachine n1 n2 h1 h2
    unfold checkIntegrityVerdict
    rw [h1, h2]
    by_cases hh : normalizeHumanJsonc curHuman = normalizeHumanJsonc benchHuman
    · by_cases hm : pyEq n1 n2 = true
      · simp [hh, hm]
      · simp [hh, hm]
    · simp [hh]

/-- Witness for C7: the empty corpus built at two timestamps matches. -/
theorem c7_witness :
    pyEq (normMachineDocFromStandard []) (normMachineDocFromStandard []) = true :=
  c7_integrity_check.1 [] "T1" "T2"
    (normMachineDocFromStandard []) (normMachineDocFromStandard [])
    (by simp) rfl rfl

/-! ## Re-scan behaviour (claim C6) -/

/-- Filtering out the elements the map sends to `none` anyway does not
change a `filterMap`. -/
theorem filterMap_eq_on_filter {α β : Type} (p : α → Bool) (g : α → Option β)
    (h : ∀ a, p a = false → g a = none) :
    ∀ l : List α, l.filterMap g = (l.filter p).filterMap g := by
  intro l
  induction l with
  | nil => rfl
  | cons a tl ih =>
    cases hp : p a with
    | true => simp [List.filterMap_cons, List.filter_cons, hp, ih]
    | false => simp [List.filterMap_cons, List.filter_cons, hp, h a hp, ih]

/-- The scan ignores exactly the files whose name contains
`unified_spec`: dropping them from the file list beforehand changes
nothing. -/
theorem scan_skips_unified_names (parse : String → Option Json)
    (files : List ScanFile) :
    scanSpecRecords parse files
      = scanSpecRecords parse
          (files.filter (fun f => !(decide ("unified_spec".data <:+: f.name.data)))) := by
  unfold scanSpecRecords
  rw [filterMap_eq_on_filter
    (fun f => !(decide ("unified_spec".data <:+: f.name.data)))]
  intro f hf
  rw [if_pos]
  simpa using hf

/-- The spec tree of the C6 scenario: one module file containing `{}`. -/
def fileA : ScanFile := ⟨["spec", "01_foundation", "a.jsonc"], "\x7b\x7d"⟩

/-- The record the scan produces for it. -/
def recA : SpecRecord :=
  ⟨"spec/01_foundation/a.jsonc", "a", "01_foundation", 1, "\x7b\x7d", .obj .nil⟩

/-- What `json.loads` returns on the comment-stripped text of the domain
bundle generated from that record. -/
def bundleParsedC6 : Json := .obj (JObj.ofList
  [("meta", .obj (JObj.ofList
      [("standard", .str "OpenRGD"),
       ("type", .str "DOMAIN_HUMAN_TWIN_WITH_COMMENTS"),
       ("domain", .str "01_foundation"),
       ("version", .str "0.1.0")])),
   ("files", .arr (JArr.ofList
      [.obj (JObj.ofList
        [("path", .str "spec/01_foundation/a.jsonc"),
         ("id", .str "a"),
         ("domain", .str "01_foundation"),
         ("content", .obj .nil)])]))])

/-- The domain-bundle Human Twin written into the spec directory as
`01_spec.jsonc` (timestamp `T`). -/
def bundleTextC6 : String := domainBundleHumanText "01_foundation" [recA] "T"

/-- The parse model for the scenario: `json.loads` applied to the two
stripped texts the scan can feed it (the module file and the bundle). -/
def parseC6 : String → Option Json := fun s =>
  if s = "\x7b\x7d" then some (.obj .nil)
  else if s = stripJsonc (pstrip bundleTextC6) then some bundleParsedC6
  else none

/-- The files found by the glob after the unified Human Twin and the
domain bundle have been written into the spec tree, in path order. -/
def filesC6 : List ScanFile :=
  [fileA, ⟨["spec", "01_spec.jsonc"], bundleTextC6⟩,
   ⟨["spec", "openrgd_unified_spec.jsonc"], humanUnifiedText [recA] "T"⟩]

/-- The record the second scan produces for the bundle file — note the
bundle's own filename becomes its domain. -/
def recBundle : SpecRecord :=
  ⟨"spec/01_spec.jsonc", "01_spec", "01_spec.jsonc", 1, bundleTextC6,
    bundleParsedC6⟩

/-- Claim C6 (amended): the scanner skips exactly the files whose name
contains `unified_spec` — so a regenerated unified document is never
re-included — but a per-domain bundle file `01_spec.jsonc` does not
match that filter: scanning after writing the unified document and the
bundles yields the bundle itself as an extra record (sorted first, since
`01_spec` precedes `a`). -/
theorem c6_rescan_includes_bundles :
    (∀ (parse : String → Option Json) (files : List ScanFile),
      scanSpecRecords parse files
        = scanSpecRecords parse
            (files.filter (fun f => !(decide ("unified_spec".data <:+: f.name.data))))) ∧
    generateDomainBundleHumanFiles
        (buildDomainMaps (scanSpecRecords parseC6 [fileA])).1 "T"
      = [("01_spec.jsonc", bundleTextC6)] ∧
    scanSpecRecords parseC6 filesC6 = [recBundle, recA] :=
  ⟨scan_skips_unified_names, by decide, by decide⟩

/-- Counterexample for C6 as stated: scanning the tree, writing the
unified document and the domain bundle into it, and scanning again does
NOT reproduce the first scan's record list — the bundle is included. -/
theorem c6_counterexample :
    scanSpecRecords parseC6 filesC6 ≠ scanSpecRecords parseC6 [fileA] := by
  decide
